import Mathlib

/-
Verification of src/terraform_cloud_workspace_manager.py against its design
specification.  The Python program is shallowly embedded below:

* JSON documents become the inductive type `JVal`; Python dicts become ordered
  association lists (Python dicts preserve insertion order, and the program
  never inserts a key twice).
* `requests.patch(url, json=data, headers=...)` is embedded as constructing a
  `Request` record; the program is modelled up to the point where the request
  is issued, and the response handling (`_log_response`) is modelled as a pure
  function from the response's status code and body to the list of printed
  lines.
* `urllib.parse.urljoin` is embedded for the case the program exercises: the
  second argument is a non-empty relative path reference (it starts with
  "organizations/", hence has no scheme and no netloc; it is assumed to carry
  no query or fragment, i.e. the interpolated names contain no "?" or "#").
  The base URL is modelled structurally as an origin ("scheme://netloc") plus
  a path; the embedding follows CPython's algorithm: drop the base path's last
  segment when it is not empty, append the relative segments, filter empty
  interior segments, resolve "." and ".." segments, and re-join with "/".
* The filesystem is modelled as the list of existing paths, each path being
  its list of segments from the root; `os.getcwd()` becomes an explicit
  parameter.
* `re.search` with the two concrete patterns of the program is embedded as
  direct backtracking scanners over `List Char` with exactly Python's
  leftmost-match semantics ("[^}]*" greedy, "(.*?)" lazy, re.DOTALL so "."
  also matches newlines).
* `argparse` is embedded for the exact long flags the program registers
  (no "--flag=value" forms and no prefix abbreviations, which no claim
  exercises); a token starting with "-" is not accepted as the value of
  "--change-branch", mirroring argparse's "expected one argument" error.
-/

/-- JSON-like values used for request bodies and settings patches. -/
inductive JVal where
  | str (s : String)
  | arr (xs : List JVal)
  | obj (kvs : List (String × JVal))

/-- An HTTP request as assembled by TerraformCloudAPI.patch_workspace. -/
structure Request where
  method : String
  url : String
  body : JVal
  headers : List (String × String)

/-! Character-level path machinery for the urljoin embedding. -/

/-- Split a character list on the slash character, mirroring Python str.split("/"):
the result is always non-empty, and empty input yields one empty segment. -/
def splitSlash : List Char → List (List Char)
  | [] => [[]]
  | c :: rest =>
    if c = '/' then [] :: splitSlash rest
    else
      match splitSlash rest with
      | [] => [[c]]
      | s :: ss => (c :: s) :: ss

/-- Join segments with slashes, mirroring Python "/".join. -/
def joinSlash : List (List Char) → List Char
  | [] => []
  | [s] => s
  | s :: ss => s ++ '/' :: joinSlash ss

/-- Drop empty segments except the final one, mirroring CPython urljoin's
filtering of segments[1:-1] (the head is handled separately at the call site). -/
def keepLastFilter : List (List Char) → List (List Char)
  | [] => []
  | [s] => [s]
  | s :: ss => if s = [] then keepLastFilter ss else s :: keepLastFilter ss

/-- Resolve "." and ".." segments the way CPython urljoin does: ".." pops the
accumulator (silently doing nothing on an empty accumulator) and "." is skipped. -/
def resolveDots (acc : List (List Char)) : List (List Char) → List (List Char)
  | [] => acc
  | s :: rest =>
    if s = ['.', '.'] then resolveDots acc.dropLast rest
    else if s = ['.'] then resolveDots acc rest
    else resolveDots (acc ++ [s]) rest

/-- CPython urljoin path merging for a relative reference `rel` against base
path `bpath`: drop the base's last segment unless it is empty, concatenate,
filter empty interior segments, resolve dot segments, re-join, and fall back
to "/" when the joined path would be empty. -/
def mergePath (bpath rel : List Char) : List Char :=
  let baseParts0 := splitSlash bpath
  let baseParts := if baseParts0.getLast? = some [] then baseParts0 else baseParts0.dropLast
  let segments :=
    if rel.head? = some '/' then splitSlash rel
    else
      match baseParts ++ splitSlash rel with
      | [] => []
      | s :: rest => s :: keepLastFilter rest
  let resolved0 := resolveDots [] segments
  let resolved :=
    if segments.getLast? = some ['.'] ∨ segments.getLast? = some ['.', '.'] then
      resolved0 ++ [[]]
    else resolved0
  match joinSlash resolved with
  | [] => ['/']
  | js => js

/-- urllib.parse.urljoin, for a base URL split as origin ("scheme://netloc")
plus path, and a relative path reference; CPython returns the second argument
unchanged when the base URL is the empty string. -/
def urljoin (origin bpath rel : String) : String :=
  if origin ++ bpath = "" then rel
  else origin ++ String.mk (mergePath bpath.toList rel.toList)

/-- TerraformCloudAPI.patch_workspace: the PATCH request against
urljoin(base_url, "organizations/{org}/workspaces/{ws}") with the bearer-token
and content-type headers from the module-level HEADERS dict. -/
def patch_workspace (origin bpath token organization_name workspace_name : String)
    (data : JVal) : Request :=
  { method := "PATCH"
    url := urljoin origin bpath
      ("organizations/" ++ organization_name ++ "/workspaces/" ++ workspace_name)
    body := data
    headers := [("Authorization", "Bearer " ++ token),
                ("Content-Type", "application/vnd.api+json")] }

/-- WorkspaceManager.update_workspace_settings: wraps the settings patch in the
JSON:API envelope and issues the PATCH (the keys appear in the source's
insertion order: "attributes" then "type"). -/
def update_workspace_settings (origin bpath token organization_name workspace_name : String)
    (kwargs : List (String × JVal)) : Request :=
  patch_workspace origin bpath token organization_name workspace_name
    (JVal.obj [("data", JVal.obj [("attributes", JVal.obj kwargs),
                                  ("type", JVal.str "workspaces")])])

/-! Filesystem model: a filesystem is the list of existing paths, each given as
its segment list from the root; the current working directory is a parameter. -/

/-- The version-control marker directory name. -/
def gitMarker : String := ".git"

/-- The entries of a directory in the modelled filesystem (Path.iterdir). -/
def childrenOf (fs : List (List String)) (q : List String) : List (List String) :=
  fs.filter (fun r => r.dropLast == q && !r.isEmpty)

/-- The loop condition of WorkspaceManager.find_repo_root, kept with its quirk:
the generator `any((parent / '.git').exists() for child in parent.iterdir())`
re-evaluates the same existence test once per child, so it is true exactly when
the directory has at least one child and the marker exists. -/
def hasMarkerQuirk (fs : List (List String)) (q : List String) : Bool :=
  !(childrenOf fs q).isEmpty && decide ((q ++ [gitMarker]) ∈ fs)

/-- The proper ancestors of a path, nearest first, ending with the root []
(Path.parents). -/
def parentsListAux : List String → List (List String)
  | [] => []
  | _ :: t => t.reverse :: parentsListAux t

def parentsList (p : List String) : List (List String) := parentsListAux p.reverse

/-- WorkspaceManager.find_repo_root: walk [path] + parents and return the first
directory satisfying the loop condition, defaulting to the starting path. -/
def find_repo_root (fs : List (List String)) (p : List String) : List String :=
  match (p :: parentsList p).find? (hasMarkerQuirk fs) with
  | some q => q
  | none => p

/-- Length of the longest common prefix of two segment lists
(os.path.commonprefix on the pair of segment lists). -/
def commonPrefixLen : List String → List String → Nat
  | [], _ => 0
  | _, [] => 0
  | a :: as_, b :: bs =>
    if a = b then commonPrefixLen as_ bs + 1 else 0

/-- os.path.relpath(path, start) on absolute segment lists: ".." once per
uncommon start segment, then the uncommon path segments, "." when empty. -/
def relpath (path start : List String) : String :=
  let i := commonPrefixLen start path
  let rel := List.replicate (start.length - i) ".." ++ path.drop i
  if rel = [] then "." else String.intercalate "/" rel

/-- WorkspaceManager.get_working_directory: the current directory relative to
the resolved repository root. -/
def get_working_directory (fs : List (List String)) (cwd : List String) : String :=
  relpath cwd (find_repo_root fs cwd)

/-! The command line: argparse embedding for the program's six long flags. -/

/-- The parsed argument namespace (argparse.Namespace); `local` is a Lean
keyword, so the field is `local_`. -/
structure Args where
  local_ : Bool
  remote : Bool
  change_branch : Option String
  set_working_directory : Bool
  set_trigger_paths : Bool
  reset_workspace : Bool

/-- The namespace before any token is processed (all store_true flags default
to False, --change-branch defaults to None). -/
def initArgs : Args :=
  { local_ := false, remote := false, change_branch := none,
    set_working_directory := false, set_trigger_paths := false,
    reset_workspace := false }

/-- Whether a token begins with "-" (str.startswith("-"), argparse's test for
an option-like token). -/
def dashFirst (v : String) : Bool := v.toList.head? == some '-'

/-- One pass over the tokens.  --local and --remote form a mutually exclusive
group: seeing one after the other has been seen is an argparse error.  A token
beginning with "-" is not accepted as the value of --change-branch (argparse's
"expected one argument" error), and an unrecognized token is an error. -/
def parseGo : Args → List String → Except String Args
  | a, [] => Except.ok a
  | a, t :: rest =>
    if t = "--local" then
      if a.remote then Except.error "argument --local: not allowed with argument --remote"
      else parseGo { a with local_ := true } rest
    else if t = "--remote" then
      if a.local_ then Except.error "argument --remote: not allowed with argument --local"
      else parseGo { a with remote := true } rest
    else if t = "--change-branch" then
      match rest with
      | [] => Except.error "argument --change-branch: expected one argument"
      | v :: rest2 =>
        if dashFirst v then Except.error "argument --change-branch: expected one argument"
        else parseGo { a with change_branch := some v } rest2
    else if t = "--set-working-directory" then
      parseGo { a with set_working_directory := true } rest
    else if t = "--set-trigger-paths" then
      parseGo { a with set_trigger_paths := true } rest
    else if t = "--reset-workspace" then
      parseGo { a with reset_workspace := true } rest
    else Except.error ("unrecognized arguments: " ++ t)

def parseArgs (argv : List String) : Except String Args :=
  parseGo initArgs argv

/-- main lines 131-135: --reset-workspace overwrites the other settings fields
(note it does not touch args.local). -/
def applyReset (a : Args) : Args :=
  if a.reset_workspace then
    { a with remote := true, change_branch := some "main",
             set_working_directory := true, set_trigger_paths := true }
  else a

/-- build_settings: the settings dict in source insertion order.  Python
truthiness makes both None and the empty string skip the vcs-repo entry. -/
def build_settings (fs : List (List String)) (cwd : List String) (args : Args) :
    List (String × JVal) :=
  (if args.local_ then [("execution-mode", JVal.str "local")]
   else if args.remote then [("execution-mode", JVal.str "remote")]
   else [])
  ++ (match args.change_branch with
      | some b => if b ≠ "" then [("vcs-repo", JVal.obj [("branch", JVal.str b)])] else []
      | none => [])
  ++ (if args.set_working_directory then
        [("working-directory", JVal.str (get_working_directory fs cwd))]
      else [])
  ++ (if args.set_trigger_paths then
        [("trigger-patterns",
          JVal.arr [JVal.str (relpath cwd (find_repo_root fs cwd) ++ "/**/*"),
                    JVal.str (relpath cwd (find_repo_root fs cwd) ++ "/common/**/*")])]
      else [])

/-! Response logging (WorkspaceManager._log_response). -/

/-- One printed line: a green success line (carrying the message template and
the value interpolated into it) or the red failure line (carrying the status
code and response body interpolated into it). -/
inductive LogLine where
  | success (key : String) (template : String) (payload : JVal)
  | failure (status : Nat) (body : String)

/-- The success_messages dict, in source order. -/
def success_messages : List (String × String) :=
  [("working-directory", "Successfully updated working directory to: \x7b\x7d"),
   ("execution-mode", "Successfully updated workspace execution mode to: \x7b\x7d"),
   ("trigger-patterns", "Successfully updated workspace trigger patterns to: \x7b\x7d"),
   ("vcs-repo", "Successfully updated workspace branch to: \x7b\x7d")]

/-- The value printed for a key: for a dict value under "vcs-repo" with a
"branch" entry, the branch alone; otherwise the stored value. -/
def logPayload (key : String) (v : JVal) : JVal :=
  match v with
  | JVal.obj kvs =>
    if key = "vcs-repo" then
      match List.lookup "branch" kvs with
      | some b => b
      | none => v
    else v
  | _ => v

/-- _log_response: on status 200 one success line per success_messages key
present in the settings, in success_messages order; otherwise the single
failure line with the status code and response text. -/
def log_response (status : Nat) (text : String) (settings : List (String × JVal)) :
    List LogLine :=
  if status = 200 then
    success_messages.filterMap (fun km =>
      match List.lookup km.1 settings with
      | some v => some (LogLine.success km.1 km.2 (logPayload km.1 v))
      | none => none)
  else [LogLine.failure status text]

/-! The Workspace Locator: re.search with the two patterns of
find_workspace_and_org, embedded as backtracking scanners over List Char. -/

/-- The right-brace character, the one class excluded by "[^}]*". -/
def rbrace : Char := Char.ofNat 125

def notBrace (c : Char) : Bool := c != rbrace

/-- The literal head of the workspace pattern: `workspaces {`. -/
def wsOpenL : List Char := "workspaces \x7b".toList

/-- The literal before the captured workspace name: `name = "`. -/
def nameNeedleL : List Char := "name = \"".toList

/-- The tail of `nameNeedleL` after its first character. -/
def nameTailL : List Char := "ame = \"".toList

/-- The literal before the captured organization name: `organization = "`. -/
def orgNeedleL : List Char := "organization = \"".toList

/-- The lazy group `(.*?)` followed by the closing quote: the characters up to
the first quote, or no match at all when no quote follows (re.DOTALL lets the
group cross newlines). -/
def takeUntilQuote : List Char → Option (List Char)
  | [] => none
  | c :: rest =>
    if c = '"' then some []
    else (takeUntilQuote rest).map (fun w => c :: w)

/-- re.search for a plain literal needle: the remainder after the leftmost
occurrence. -/
def findNeedle (needle : List Char) : List Char → Option (List Char)
  | [] => if needle.isPrefixOf ([] : List Char) then some [] else none
  | c :: rest =>
    if needle.isPrefixOf (c :: rest) then some ((c :: rest).drop needle.length)
    else findNeedle needle rest

/-- Matching `name = "(.*?)"` at the current position. -/
def tryName (cs : List Char) : Option (List Char) :=
  if nameNeedleL.isPrefixOf cs then takeUntilQuote (cs.drop nameNeedleL.length)
  else none

/-- Matching `[^}]*name = "(.*?)"`: the star is greedy, so the scanner first
tries to extend the run of non-brace characters and only on failure matches
the name literal at the current position; at a brace the run must stop. -/
def wsInner : List Char → Option (List Char)
  | [] => none
  | c :: rest =>
    if c = rbrace then tryName (c :: rest)
    else
      match wsInner rest with
      | some w => some w
      | none => tryName (c :: rest)

/-- re.search for the whole pattern `workspaces {[^}]*name = "(.*?)"`: try each
occurrence of the literal head from the left, continuing past occurrences whose
tail fails to match. -/
def wsSearch : List Char → Option (List Char)
  | [] => none
  | c :: rest =>
    if wsOpenL.isPrefixOf (c :: rest) then
      match wsInner ((c :: rest).drop wsOpenL.length) with
      | some w => some w
      | none => wsSearch rest
    else wsSearch rest

/-- _extract_value with pattern `workspaces {[^}]*name = "(.*?)"` (re.DOTALL). -/
def extract_ws (content : String) : Option String :=
  (wsSearch content.toList).map String.mk

/-- _extract_value with pattern `organization = "(.*?)"` (re.DOTALL). -/
def extract_org (content : String) : Option String :=
  (findNeedle orgNeedleL content.toList).bind
    (fun rest => (takeUntilQuote rest).map String.mk)

/-- find_workspace_and_org: the file is modelled as `Option String` (None is a
missing file, caught as FileNotFoundError and reported); the result pair is
(workspace_name, organization_name). -/
def find_workspace_and_org (file : Option String) : Option String × Option String :=
  match file with
  | some content => (extract_ws content, extract_org content)
  | none => (none, none)

/-! The main flow. -/

/-- Python truthiness of the two extracted values: None and "" are falsy. -/
def truthy : Option String → Bool
  | some s => s != ""
  | none => false

/-- The externally observable effects of one run of main, up to issuing the
HTTP request (the response handling is modelled separately by log_response):
whether argparse rejected the command line, whether the input file was opened,
whether the not-found error path was taken, and the request, if any. -/
structure MainTrace where
  parseError : Bool
  fileRead : Bool
  notFound : Bool
  request : Option Request

/-- main: parse the command line (an argparse error ends the run before any
file read or HTTP call), apply --reset-workspace, locate the workspace, and
send the patch only when both names are truthy and the settings are non-empty. -/
def runMain (argv : List String) (file : Option String) (fs : List (List String))
    (cwd : List String) (origin bpath token : String) : MainTrace :=
  match parseArgs argv with
  | Except.error _ =>
    { parseError := true, fileRead := false, notFound := false, request := none }
  | Except.ok a0 =>
    let args := applyReset a0
    match find_workspace_and_org file with
    | (some w, some o) =>
      if w ≠ "" ∧ o ≠ "" then
        let settings := build_settings fs cwd args
        if settings.isEmpty then
          { parseError := false, fileRead := true, notFound := false, request := none }
        else
          { parseError := false, fileRead := true, notFound := false,
            request := some (update_workspace_settings origin bpath token o w settings) }
      else
        { parseError := false, fileRead := true, notFound := true, request := none }
    | (_, _) =>
      { parseError := false, fileRead := true, notFound := true, request := none }


/-! Helper lemmas. -/

/-- The loop condition of find_repo_root is equivalent to plain existence of
the marker: when the marker exists it is itself listed by iterdir, so the
directory is non-empty. -/
lemma hasMarkerQuirk_eq (fs : List (List String)) (q : List String) :
    hasMarkerQuirk fs q = decide ((q ++ [gitMarker]) ∈ fs) := by
  unfold hasMarkerQuirk
  cases h : decide ((q ++ [gitMarker]) ∈ fs) with
  | false => simp
  | true =>
    have hm : (q ++ [gitMarker]) ∈ fs := of_decide_eq_true h
    have hmem : (q ++ [gitMarker]) ∈ childrenOf fs q := by
      unfold childrenOf
      rw [List.mem_filter]
      refine ⟨hm, ?_⟩
      simp [List.dropLast_concat]
    have hne : childrenOf fs q ≠ [] := List.ne_nil_of_mem hmem
    simp [List.isEmpty_iff, hne]

/-- Whether an argparse run ended in an error. -/
def isErrorResult : Except String Args → Bool
  | Except.error _ => true
  | Except.ok _ => false

/-! Small-step characterization of parseGo, one lemma per token kind. -/

lemma parseGo_local_ok (a : Args) (rest : List String) (h : a.remote = false) :
    parseGo a ("--local" :: rest) = parseGo { a with local_ := true } rest := by
  rw [parseGo.eq_def]; simp [h]

lemma parseGo_local_err (a : Args) (rest : List String) (h : a.remote = true) :
    isErrorResult (parseGo a ("--local" :: rest)) = true := by
  rw [parseGo.eq_def]; simp [h, isErrorResult]

lemma parseGo_remote_ok (a : Args) (rest : List String) (h : a.local_ = false) :
    parseGo a ("--remote" :: rest) = parseGo { a with remote := true } rest := by
  rw [parseGo.eq_def]; simp [h]

lemma parseGo_remote_err (a : Args) (rest : List String) (h : a.local_ = true) :
    isErrorResult (parseGo a ("--remote" :: rest)) = true := by
  rw [parseGo.eq_def]; simp [h, isErrorResult]

lemma parseGo_cb_nil (a : Args) :
    isErrorResult (parseGo a ["--change-branch"]) = true := by
  rw [parseGo.eq_def]; simp [isErrorResult]

lemma parseGo_cb_dash (a : Args) (v : String) (rest2 : List String)
    (h : dashFirst v = true) :
    isErrorResult (parseGo a ("--change-branch" :: v :: rest2)) = true := by
  rw [parseGo.eq_def]; simp [h, isErrorResult]

lemma parseGo_cb_ok (a : Args) (v : String) (rest2 : List String)
    (h : dashFirst v = false) :
    parseGo a ("--change-branch" :: v :: rest2) =
      parseGo { a with change_branch := some v } rest2 := by
  rw [parseGo.eq_def]; simp [h]

lemma parseGo_swd (a : Args) (rest : List String) :
    parseGo a ("--set-working-directory" :: rest) =
      parseGo { a with set_working_directory := true } rest := by
  rw [parseGo.eq_def]; simp

lemma parseGo_stp (a : Args) (rest : List String) :
    parseGo a ("--set-trigger-paths" :: rest) =
      parseGo { a with set_trigger_paths := true } rest := by
  rw [parseGo.eq_def]; simp

lemma parseGo_rw (a : Args) (rest : List String) :
    parseGo a ("--reset-workspace" :: rest) =
      parseGo { a with reset_workspace := true } rest := by
  rw [parseGo.eq_def]; simp

lemma parseGo_unknown (a : Args) (t : String) (rest : List String)
    (h1 : t ≠ "--local") (h2 : t ≠ "--remote") (h3 : t ≠ "--change-branch")
    (h4 : t ≠ "--set-working-directory") (h5 : t ≠ "--set-trigger-paths")
    (h6 : t ≠ "--reset-workspace") :
    isErrorResult (parseGo a (t :: rest)) = true := by
  rw [parseGo.eq_def]; simp [h1, h2, h3, h4, h5, h6, isErrorResult]

/-- A flag token begins with "-". -/
lemma dashFirst_of_flag (v : String) (h : v = "--local" ∨ v = "--remote") :
    dashFirst v = true := by
  rcases h with h | h <;> subst h <;> decide

/-- Once --local has been seen, any later --remote makes the parse fail. -/
lemma parseGo_err_of_local : ∀ (argv : List String) (a : Args), a.local_ = true →
    "--remote" ∈ argv → isErrorResult (parseGo a argv) = true
  | [], _, _, hm => absurd hm (List.not_mem_nil _)
  | t :: rest, a, hl, hm => by
    rw [List.mem_cons] at hm
    by_cases h1 : t = "--local"
    · subst h1
      have hm2 : "--remote" ∈ rest := by
        rcases hm with hm | hm
        · exact absurd hm.symm (by decide)
        · exact hm
      by_cases h2 : a.remote
      · exact parseGo_local_err a rest h2
      · rw [parseGo_local_ok a rest (by rw [Bool.not_eq_true] at h2; exact h2)]
        exact parseGo_err_of_local rest _ rfl hm2
    · by_cases h2 : t = "--remote"
      · subst h2
        exact parseGo_remote_err a rest hl
      · have hm2 : "--remote" ∈ rest := by
          rcases hm with hm | hm
          · exact absurd hm.symm h2
          · exact hm
        by_cases h3 : t = "--change-branch"
        · subst h3
          cases rest with
          | nil => cases hm2
          | cons v rest2 =>
            rw [List.mem_cons] at hm2
            by_cases h4 : dashFirst v
            · exact parseGo_cb_dash a v rest2 h4
            · have hv : v ≠ "--remote" := by
                intro hv; subst hv; exact h4 (by decide)
              have hm3 : "--remote" ∈ rest2 := by
                rcases hm2 with hm2 | hm2
                · exact absurd hm2.symm hv
                · exact hm2
              rw [parseGo_cb_ok a v rest2 (by rw [Bool.not_eq_true] at h4; exact h4)]
              exact parseGo_err_of_local rest2 _ hl hm3
        · by_cases h5 : t = "--set-working-directory"
          · subst h5
            rw [parseGo_swd]
            exact parseGo_err_of_local rest _ hl hm2
          · by_cases h6 : t = "--set-trigger-paths"
            · subst h6
              rw [parseGo_stp]
              exact parseGo_err_of_local rest _ hl hm2
            · by_cases h7 : t = "--reset-workspace"
              · subst h7
                rw [parseGo_rw]
                exact parseGo_err_of_local rest _ hl hm2
              · exact parseGo_unknown a t rest h1 h2 h3 h5 h6 h7

/-- Once --remote has been seen, any later --local makes the parse fail. -/
lemma parseGo_err_of_remote : ∀ (argv : List String) (a : Args), a.remote = true →
    "--local" ∈ argv → isErrorResult (parseGo a argv) = true
  | [], _, _, hm => absurd hm (List.not_mem_nil _)
  | t :: rest, a, hr, hm => by
    rw [List.mem_cons] at hm
    by_cases h1 : t = "--local"
    · subst h1
      exact parseGo_local_err a rest hr
    · have hm2 : "--local" ∈ rest := by
        rcases hm with hm | hm
        · exact absurd hm.symm h1
        · exact hm
      by_cases h2 : t = "--remote"
      · subst h2
        by_cases h3 : a.local_
        · exact parseGo_remote_err a rest h3
        · rw [parseGo_remote_ok a rest (by rw [Bool.not_eq_true] at h3; exact h3)]
          exact parseGo_err_of_remote rest _ rfl hm2
      · by_cases h3 : t = "--change-branch"
        · subst h3
          cases rest with
          | nil => cases hm2
          | cons v rest2 =>
            rw [List.mem_cons] at hm2
            by_cases h4 : dashFirst v
            · exact parseGo_cb_dash a v rest2 h4
            · have hv : v ≠ "--local" := by
                intro hv; subst hv; exact h4 (by decide)
              have hm3 : "--local" ∈ rest2 := by
                rcases hm2 with hm2 | hm2
                · exact absurd hm2.symm hv
                · exact hm2
              rw [parseGo_cb_ok a v rest2 (by rw [Bool.not_eq_true] at h4; exact h4)]
              exact parseGo_err_of_remote rest2 _ hr hm3
        · by_cases h5 : t = "--set-working-directory"
          · subst h5
            rw [parseGo_swd]
            exact parseGo_err_of_remote rest _ hr hm2
          · by_cases h6 : t = "--set-trigger-paths"
            · subst h6
              rw [parseGo_stp]
              exact parseGo_err_of_remote rest _ hr hm2
            · by_cases h7 : t = "--reset-workspace"
              · subst h7
                rw [parseGo_rw]
                exact parseGo_err_of_remote rest _ hr hm2
              · exact parseGo_unknown a t rest h1 h2 h3 h5 h6 h7

/-- A command line containing both --local and --remote never parses. -/
lemma parseGo_err_both : ∀ (argv : List String) (a : Args),
    "--local" ∈ argv → "--remote" ∈ argv → isErrorResult (parseGo a argv) = true
  | [], _, hml, _ => absurd hml (List.not_mem_nil _)
  | t :: rest, a, hml, hmr => by
    rw [List.mem_cons] at hml hmr
    by_cases h1 : t = "--local"
    · subst h1
      have hmr2 : "--remote" ∈ rest := by
        rcases hmr with hmr | hmr
        · exact absurd hmr.symm (by decide)
        · exact hmr
      by_cases h2 : a.remote
      · exact parseGo_local_err a rest h2
      · rw [parseGo_local_ok a rest (by rw [Bool.not_eq_true] at h2; exact h2)]
        exact parseGo_err_of_local rest _ rfl hmr2
    · have hml2 : "--local" ∈ rest := by
        rcases hml with hml | hml
        · exact absurd hml.symm h1
        · exact hml
      by_cases h2 : t = "--remote"
      · subst h2
        by_cases h3 : a.local_
        · exact parseGo_remote_err a rest h3
        · rw [parseGo_remote_ok a rest (by rw [Bool.not_eq_true] at h3; exact h3)]
          exact parseGo_err_of_remote rest _ rfl hml2
      · have hmr2 : "--remote" ∈ rest := by
          rcases hmr with hmr | hmr
          · exact absurd hmr.symm h2
          · exact hmr
        by_cases h3 : t = "--change-branch"
        · subst h3
          cases rest with
          | nil => cases hml2
          | cons v rest2 =>
            rw [List.mem_cons] at hml2 hmr2
            by_cases h4 : dashFirst v
            · exact parseGo_cb_dash a v rest2 h4
            · have hvl : v ≠ "--local" := by
                intro hv; subst hv; exact h4 (by decide)
              have hvr : v ≠ "--remote" := by
                intro hv; subst hv; exact h4 (by decide)
              have hml3 : "--local" ∈ rest2 := by
                rcases hml2 with h | h
                · exact absurd h.symm hvl
                · exact h
              have hmr3 : "--remote" ∈ rest2 := by
                rcases hmr2 with h | h
                · exact absurd h.symm hvr
                · exact h
              rw [parseGo_cb_ok a v rest2 (by rw [Bool.not_eq_true] at h4; exact h4)]
              exact parseGo_err_both rest2 _ hml3 hmr3
        · by_cases h5 : t = "--set-working-directory"
          · subst h5
            rw [parseGo_swd]
            exact parseGo_err_both rest _ hml2 hmr2
          · by_cases h6 : t = "--set-trigger-paths"
            · subst h6
              rw [parseGo_stp]
              exact parseGo_err_both rest _ hml2 hmr2
            · by_cases h7 : t = "--reset-workspace"
              · subst h7
                rw [parseGo_rw]
                exact parseGo_err_both rest _ hml2 hmr2
              · exact parseGo_unknown a t rest h1 h2 h3 h5 h6 h7

/-- Claim C7: find_repo_root walks upward from the starting directory through
its ancestors and returns the first directory containing the `.git` marker
(the iterdir quirk in the loop condition is behaviorally invisible); when no
ancestor has the marker it returns the starting directory itself; and on the
tree /repo/.git, /repo/sub/dir, resolving from /repo/sub/dir gives the root
/repo and the relative working directory "sub/dir". -/
theorem claim_C7 (fs : List (List String)) (p : List String) :
    (find_repo_root fs p =
      match (p :: parentsList p).find? (fun q => decide ((q ++ [gitMarker]) ∈ fs)) with
      | some q => q
      | none => p)
    ∧ find_repo_root [["repo"], ["repo", ".git"], ["repo", "sub"], ["repo", "sub", "dir"]]
        ["repo", "sub", "dir"] = ["repo"]
    ∧ get_working_directory [["repo"], ["repo", ".git"], ["repo", "sub"], ["repo", "sub", "dir"]]
        ["repo", "sub", "dir"] = "sub/dir" := by
  refine ⟨?_, by decide, by decide⟩
  unfold find_repo_root
  rw [show hasMarkerQuirk fs = (fun q => decide ((q ++ [gitMarker]) ∈ fs)) from
    funext (hasMarkerQuirk_eq fs)]

/-- Claim C8: a command line containing both --local and --remote is rejected
by the argument parser, and the run performs no file read and issues no HTTP
request. -/
theorem claim_C8 (argv : List String) (file : Option String) (fs : List (List String))
    (cwd : List String) (origin bpath token : String)
    (h1 : "--local" ∈ argv) (h2 : "--remote" ∈ argv) :
    isErrorResult (parseArgs argv) = true
    ∧ (runMain argv file fs cwd origin bpath token).fileRead = false
    ∧ (runMain argv file fs cwd origin bpath token).request = none := by
  have he : isErrorResult (parseArgs argv) = true := parseGo_err_both argv initArgs h1 h2
  refine ⟨he, ?_, ?_⟩ <;>
  · unfold runMain
    cases hp : parseArgs argv with
    | error e => simp
    | ok a => rw [hp] at he; exact absurd he (by simp [isErrorResult])

/-- Witness for claim C8 at the concrete command line [--local, --remote]. -/
theorem claim_C8_witness :
    isErrorResult (parseArgs ["--local", "--remote"]) = true
    ∧ (runMain ["--local", "--remote"] none [] [] "" "" "").fileRead = false
    ∧ (runMain ["--local", "--remote"] none [] [] "" "" "").request = none :=
  claim_C8 ["--local", "--remote"] none [] [] "" "" ""
    (by decide) (by decide)

/-- Counterexample for claim C2 as stated: the command line
[--local, --reset-workspace] parses (the mutually exclusive group only pairs
--local with --remote), --reset-workspace sets args.remote but leaves
args.local, and build_settings gives --local priority, so the patch carries
execution-mode "local", not "remote". -/
theorem claim_C2_counterexample :
    (match parseArgs ["--local", "--reset-workspace"] with
     | Except.ok a => List.lookup "execution-mode" (build_settings [] ["d"] (applyReset a))
     | Except.error _ => none) = some (JVal.str "local")
    ∧ (match parseArgs ["--local", "--reset-workspace"] with
       | Except.ok a => List.lookup "execution-mode" (build_settings [] ["d"] (applyReset a))
       | Except.error _ => none) ≠ some (JVal.str "remote") := by
  refine ⟨rfl, fun h => ?_⟩
  have h2 : some (JVal.str "local") = some (JVal.str "remote") := by
    rw [← h]; rfl
  injection h2 with h3
  injection h3 with h4
  exact absurd h4 (by decide)

/-- Claim C2 (amended): for every invocation whose command line includes
--reset-workspace and does not include --local, the built settings patch
contains exactly execution-mode "remote", vcs-repo branch "main", the computed
working-directory and the computed trigger-patterns, in that order. -/
theorem claim_C2 (fs : List (List String)) (cwd : List String) (args : Args)
    (h1 : args.reset_workspace = true) (h2 : args.local_ = false) :
    build_settings fs cwd (applyReset args) =
      [("execution-mode", JVal.str "remote"),
       ("vcs-repo", JVal.obj [("branch", JVal.str "main")]),
       ("working-directory", JVal.str (get_working_directory fs cwd)),
       ("trigger-patterns",
        JVal.arr [JVal.str (relpath cwd (find_repo_root fs cwd) ++ "/**/*"),
                  JVal.str (relpath cwd (find_repo_root fs cwd) ++ "/common/**/*")])] := by
  simp [applyReset, h1, build_settings, h2]

/-- Witness for claim C2 at the parsed namespace of [--reset-workspace]. -/
theorem claim_C2_witness :
    build_settings [] ["d"] (applyReset { initArgs with reset_workspace := true }) =
      [("execution-mode", JVal.str "remote"),
       ("vcs-repo", JVal.obj [("branch", JVal.str "main")]),
       ("working-directory", JVal.str (get_working_directory [] ["d"])),
       ("trigger-patterns",
        JVal.arr [JVal.str (relpath ["d"] (find_repo_root [] ["d"]) ++ "/**/*"),
                  JVal.str (relpath ["d"] (find_repo_root [] ["d"]) ++ "/common/**/*")])] :=
  claim_C2 [] ["d"] { initArgs with reset_workspace := true } rfl rfl

/-- Claim C6: when the only settings flag is --change-branch with value
"main", the built patch is exactly the single vcs-repo entry with branch
"main". -/
theorem claim_C6 (fs : List (List String)) (cwd : List String) (args : Args)
    (h1 : args.local_ = false) (h2 : args.remote = false)
    (h3 : args.change_branch = some "main")
    (h4 : args.set_working_directory = false) (h5 : args.set_trigger_paths = false)
    (h6 : args.reset_workspace = false) :
    build_settings fs cwd (applyReset args) =
      [("vcs-repo", JVal.obj [("branch", JVal.str "main")])] := by
  simp [applyReset, h6, build_settings, h1, h2, h3, h4, h5]

/-- Witness for claim C6 at the parsed namespace of [--change-branch, main]. -/
theorem claim_C6_witness :
    build_settings [] ["d"] (applyReset { initArgs with change_branch := some "main" }) =
      [("vcs-repo", JVal.obj [("branch", JVal.str "main")])] :=
  claim_C6 [] ["d"] { initArgs with change_branch := some "main" }
    rfl rfl rfl rfl rfl rfl

/-- Lookup skips a block none of whose keys is the one searched for. -/
lemma lookup_append_of_ne (k : String) (l1 l2 : List (String × JVal))
    (h : ∀ p ∈ l1, p.1 ≠ k) : List.lookup k (l1 ++ l2) = List.lookup k l2 := by
  induction l1 with
  | nil => rfl
  | cons a rest ih =>
    obtain ⟨a1, a2⟩ := a
    have ha : a1 ≠ k := h (a1, a2) (List.mem_cons_self _ _)
    have hb : (k == a1) = false := by
      rw [beq_eq_false_iff_ne]
      exact fun hk => ha hk.symm
    simp only [List.cons_append, List.lookup, hb]
    exact ih (fun p hp => h p (List.mem_cons_of_mem _ hp))

/-- Claim C9: whenever --set-trigger-paths is in effect, the trigger-patterns
setting is exactly the two-element list [rel/**/*, rel/common/**/*] in that
order, where rel is the current directory relative to the resolved repository
root. -/
theorem claim_C9 (fs : List (List String)) (cwd : List String) (args : Args)
    (h : args.set_trigger_paths = true) :
    List.lookup "trigger-patterns" (build_settings fs cwd args) =
      some (JVal.arr [JVal.str (relpath cwd (find_repo_root fs cwd) ++ "/**/*"),
                      JVal.str (relpath cwd (find_repo_root fs cwd) ++ "/common/**/*")]) := by
  unfold build_settings
  rw [h]
  rw [List.append_assoc, List.append_assoc]
  rw [lookup_append_of_ne]
  · rw [lookup_append_of_ne]
    · rw [lookup_append_of_ne]
      · rfl
      · intro p hp
        by_cases hw : args.set_working_directory <;> simp [hw] at hp
        subst hp; simp
    · intro p hp
      rcases hcb : args.change_branch with _ | b <;> rw [hcb] at hp
      · simp at hp
      · by_cases hb : b = "" <;> simp [hb] at hp
        subst hp; simp
  · intro p hp
    by_cases hl : args.local_ <;> by_cases hr : args.remote <;> simp [hl, hr] at hp <;>
      · subst hp; simp

/-- Witness for claim C9 at the parsed namespace of [--set-trigger-paths]. -/
theorem claim_C9_witness :
    List.lookup "trigger-patterns"
        (build_settings [] ["d"] { initArgs with set_trigger_paths := true }) =
      some (JVal.arr [JVal.str (relpath ["d"] (find_repo_root [] ["d"]) ++ "/**/*"),
                      JVal.str (relpath ["d"] (find_repo_root [] ["d"]) ++ "/common/**/*")]) :=
  claim_C9 [] ["d"] { initArgs with set_trigger_paths := true } rfl

/-- The run after a successful parse, written out. -/
lemma runMain_ok (argv : List String) (a : Args) (file : Option String)
    (fs : List (List String)) (cwd : List String) (origin bpath token : String)
    (hp : parseArgs argv = Except.ok a) :
    runMain argv file fs cwd origin bpath token =
      match find_workspace_and_org file with
      | (some w, some o) =>
        if w ≠ "" ∧ o ≠ "" then
          if (build_settings fs cwd (applyReset a)).isEmpty then
            ⟨false, true, false, none⟩
          else
            ⟨false, true, false,
             some (update_workspace_settings origin bpath token o w
                     (build_settings fs cwd (applyReset a)))⟩
        else ⟨false, true, true, none⟩
      | (_, _) => ⟨false, true, true, none⟩ := by
  unfold runMain
  rw [hp]

/-- Claim C3: after a successful parse, an HTTP PATCH is issued only when both
names were resolved to truthy (non-empty) values and the built settings patch
is non-empty; and whenever the file is missing or either pattern fails to
match, no request is issued and the not-found error path is taken. -/
theorem claim_C3 (argv : List String) (a : Args) (file : Option String)
    (fs : List (List String)) (cwd : List String) (origin bpath token : String)
    (hp : parseArgs argv = Except.ok a) :
    ((runMain argv file fs cwd origin bpath token).request.isSome = true →
      truthy (find_workspace_and_org file).1 = true
      ∧ truthy (find_workspace_and_org file).2 = true
      ∧ build_settings fs cwd (applyReset a) ≠ [])
    ∧ ((file = none ∨ ∃ c, file = some c ∧ (extract_ws c = none ∨ extract_org c = none)) →
      (runMain argv file fs cwd origin bpath token).request = none
      ∧ (runMain argv file fs cwd origin bpath token).notFound = true) := by
  have hrm := runMain_ok argv a file fs cwd origin bpath token hp
  constructor
  · intro hr
    rw [hrm] at hr
    cases file with
    | none => simp [find_workspace_and_org] at hr
    | some c =>
      rcases hw : extract_ws c with _ | w <;> rcases ho : extract_org c with _ | o <;>
        simp only [find_workspace_and_org, hw, ho] at hr ⊢
      · simp at hr
      · simp at hr
      · simp at hr
      · by_cases hcond : w ≠ "" ∧ o ≠ ""
        · rw [if_pos hcond] at hr
          by_cases hse : (build_settings fs cwd (applyReset a)).isEmpty
          · rw [if_pos hse] at hr
            simp at hr
          · refine ⟨?_, ?_, ?_⟩
            · simp [truthy, hcond.1]
            · simp [truthy, hcond.2]
            · intro hnil
              rw [hnil] at hse
              exact hse rfl
        · rw [if_neg hcond] at hr
          simp at hr
  · intro hcase
    rw [hrm]
    rcases hcase with hnone | ⟨c, hc, hmiss⟩
    · subst hnone
      exact ⟨rfl, rfl⟩
    · subst hc
      rcases hmiss with hm | hm
      · rw [show find_workspace_and_org (some c) = (extract_ws c, extract_org c) from rfl, hm]
        exact ⟨rfl, rfl⟩
      · rcases hw : extract_ws c with _ | w
        · rw [show find_workspace_and_org (some c) = (extract_ws c, extract_org c) from rfl,
            hw]
          exact ⟨rfl, rfl⟩
        · rw [show find_workspace_and_org (some c) = (extract_ws c, extract_org c) from rfl,
            hw, hm]
          exact ⟨rfl, rfl⟩

/-- Witness for claim C3: an empty command line parses, and with a missing
file the run issues no request and reports not-found. -/
theorem claim_C3_witness :
    (runMain [] none [] [] "" "" "").request = none
    ∧ (runMain [] none [] [] "" "" "").notFound = true :=
  (claim_C3 [] initArgs none [] [] "" "" "" rfl).2 (Or.inl rfl)

/-! Lemmas about the response logger. -/

/-- The key a printed line is about (the failure line has no key). -/
def keyFn : LogLine → String
  | LogLine.success k _ _ => k
  | LogLine.failure _ _ => ""

def isFailureLine : LogLine → Bool
  | LogLine.failure _ _ => true
  | _ => false

/-- Whether a line is the success line for the given key. -/
def isSuccessFor (k : String) : LogLine → Bool
  | LogLine.success k2 _ _ => k2 == k
  | _ => false

/-- On status 200 the keys of the printed lines are exactly the recognized
keys present in the settings, in success_messages order. -/
lemma log_response_200_keys (text : String) (settings : List (String × JVal)) :
    (log_response 200 text settings).map keyFn =
      (success_messages.map Prod.fst).filter (fun k => (List.lookup k settings).isSome) := by
  unfold log_response success_messages
  rcases h1 : List.lookup "working-directory" settings with _ | v1 <;>
  rcases h2 : List.lookup "execution-mode" settings with _ | v2 <;>
  rcases h3 : List.lookup "trigger-patterns" settings with _ | v3 <;>
  rcases h4 : List.lookup "vcs-repo" settings with _ | v4 <;>
    simp [List.filterMap_cons, h1, h2, h3, h4, keyFn]

/-- On status 200 no failure line is printed. -/
lemma log_response_200_noFailure (text : String) (settings : List (String × JVal)) :
    ∀ x ∈ log_response 200 text settings, isFailureLine x = false := by
  intro x hx
  unfold log_response at hx
  rw [if_pos rfl] at hx
  rcases List.mem_filterMap.mp hx with ⟨km, _, hfx⟩
  rcases h : List.lookup km.1 settings with _ | v <;> rw [h] at hfx
  · cases hfx
  · cases hfx
    rfl

/-- Counting success lines for a key equals counting that key among the lines'
keys, provided no line is a failure line. -/
lemma countP_isSuccessFor (k : String) (l : List LogLine)
    (h : ∀ x ∈ l, isFailureLine x = false) :
    l.countP (isSuccessFor k) = (l.map keyFn).count k := by
  induction l with
  | nil => rfl
  | cons x rest ih =>
    have hx := h x (List.mem_cons_self _ _)
    cases x with
    | success k2 t v =>
      rw [List.countP_cons, List.map_cons, List.count_cons,
        ih (fun y hy => h y (List.mem_cons_of_mem _ hy))]
      by_cases hk : k = k2
      · subst hk
        simp [isSuccessFor, keyFn]
      · have hk2 : (k2 == k) = false := by
          rw [beq_eq_false_iff_ne]
          exact fun hh => hk hh.symm
        simp [isSuccessFor, keyFn, hk, hk2]
    | failure s b => exact absurd hx (by simp [isFailureLine])

/-- Counting an element in a filtered duplicate-free list. -/
lemma count_filter_of_nodup (l : List String) (p : String → Bool) (k : String)
    (hl : l.Nodup) :
    (l.filter p).count k = if k ∈ l ∧ p k = true then 1 else 0 := by
  induction l with
  | nil => simp
  | cons x rest ih =>
    rw [List.nodup_cons] at hl
    by_cases hx : k = x
    · subst hx
      by_cases hp : p k
      · rw [List.filter_cons_of_pos hp, List.count_cons_self]
        have h0 : (rest.filter p).count k = 0 := by
          rw [ih hl.2]
          simp [hl.1]
        simp [h0, hp]
      · rw [List.filter_cons_of_neg hp, ih hl.2]
        simp [hl.1, hp]
    · by_cases hp : p x
      · rw [List.filter_cons_of_pos hp, List.count_cons_of_ne hx, ih hl.2]
        simp [hx]
      · rw [List.filter_cons_of_neg hp, ih hl.2]
        simp [hx]

/-- Claim C5: on HTTP 200 the logger prints exactly one success line per
recognized key present in the patch and no failure line; on any other status
it prints the single failure line carrying the status code and body text. -/
theorem claim_C5 (status : Nat) (text : String) (settings : List (String × JVal)) :
    (status = 200 →
      (log_response status text settings).countP isFailureLine = 0
      ∧ ∀ k : String,
          (log_response status text settings).countP (isSuccessFor k) =
            (if k ∈ success_messages.map Prod.fst ∧ (List.lookup k settings).isSome
             then 1 else 0))
    ∧ (status ≠ 200 → log_response status text settings = [LogLine.failure status text]) := by
  constructor
  · intro h200
    subst h200
    constructor
    · rw [List.countP_eq_zero]
      intro x hx
      simp [log_response_200_noFailure text settings x hx]
    · intro k
      rw [countP_isSuccessFor k _ (log_response_200_noFailure text settings),
        log_response_200_keys,
        count_filter_of_nodup _ _ _ (by decide)]
  · intro hne
    unfold log_response
    rw [if_neg hne]

/-- Witness for claim C5 at status 200 with a one-key patch. -/
theorem claim_C5_witness :
    (log_response 200 "ok" [("vcs-repo", JVal.obj [("branch", JVal.str "main")])]).countP
        isFailureLine = 0 :=
  ((claim_C5 200 "ok" [("vcs-repo", JVal.obj [("branch", JVal.str "main")])]).1 rfl).1

/-- Claim C10: on HTTP 200 the keys of the printed success lines are exactly
the recognized keys present in the patch, in the fixed source order
working-directory, execution-mode, trigger-patterns, vcs-repo, independent of
the order in which the settings were assembled; a key outside these four never
produces a line. -/
theorem claim_C10 (text : String) (settings : List (String × JVal)) :
    (log_response 200 text settings).map keyFn =
      ["working-directory", "execution-mode", "trigger-patterns", "vcs-repo"].filter
        (fun k => (List.lookup k settings).isSome) :=
  log_response_200_keys text settings

/-! Lemmas about the Locator scanners. -/

/-- Bridging the Boolean prefix test and the prefix relation. -/
lemma isPrefixOfTrue (p l : List Char) : p.isPrefixOf l = true ↔ p <+: l :=
  List.isPrefixOf_iff_prefix

lemma prefixWithin {l1 l2 : List Char} (h : l1 <+: l2) : l1 <:+: l2 :=
  List.IsPrefix.isInfix h

lemma infixTrans {l1 l2 l3 : List Char} (h1 : l1 <:+: l2) (h2 : l2 <:+: l3) :
    l1 <:+: l3 :=
  List.IsInfix.trans h1 h2

/-- The lazy group stops at the first quote. -/
lemma takeUntilQuote_append (o b : List Char) (h : '"' ∉ o) :
    takeUntilQuote (o ++ '"' :: b) = some o := by
  induction o with
  | nil => simp [takeUntilQuote]
  | cons c o' ih =>
    have hc : c ≠ '"' := fun hcq => h (hcq ▸ List.mem_cons_self _ _)
    have ho' : '"' ∉ o' := fun hq => h (List.mem_cons_of_mem _ hq)
    simp [takeUntilQuote, hc, ih ho']

/-- findNeedle lands on the needle when no earlier position carries it. -/
lemma findNeedle_skip : ∀ (a : List Char) (needle tail : List Char), needle ≠ [] →
    (∀ i, i < a.length → ¬ needle.isPrefixOf ((a ++ (needle ++ tail)).drop i) = true) →
    findNeedle needle (a ++ (needle ++ tail)) = some tail
  | [], needle, tail, hne, _ => by
    cases needle with
    | nil => exact absurd rfl hne
    | cons n nt =>
      rw [List.nil_append]
      show findNeedle (n :: nt) (n :: (nt ++ tail)) = some tail
      unfold findNeedle
      rw [if_pos ?hpre]
      case hpre =>
        rw [isPrefixOfTrue]
        exact List.prefix_append _ _
      rw [show n :: (nt ++ tail) = (n :: nt) ++ tail from rfl, List.drop_left]
  | c :: a', needle, tail, hne, h => by
    have h0 := h 0 (Nat.succ_pos _)
    rw [List.drop_zero] at h0
    have hstep : ∀ i, i < a'.length →
        ¬ needle.isPrefixOf ((a' ++ (needle ++ tail)).drop i) = true := by
      intro i hi
      have := h (i + 1) (by simpa using Nat.succ_lt_succ hi)
      simpa using this
    cases hcs : needle with
    | nil => exact absurd hcs hne
    | cons n nt =>
      rw [← hcs]
      show findNeedle needle (c :: (a' ++ (needle ++ tail))) = some tail
      unfold findNeedle
      rw [if_neg (by simpa using h0)]
      exact findNeedle_skip a' needle tail hne hstep

/-- The characters of the name needle are not braces. -/
lemma nameNeedle_chars : ∀ c ∈ nameNeedleL, notBrace c = true := by decide

/-- A prefix whose characters all satisfy the predicate is a prefix of the
takeWhile. -/
lemma prefix_takeWhile (q : Char → Bool) :
    ∀ (p l : List Char), p <+: l → (∀ c ∈ p, q c = true) → p <+: l.takeWhile q
  | [], l, _, _ => List.nil_prefix
  | c :: p', l, h, hq => by
    obtain ⟨t, rfl⟩ := h
    have hc : q c = true := hq c (List.mem_cons_self _ _)
    rw [show (c :: p') ++ t = c :: (p' ++ t) from rfl, List.takeWhile_cons, hc]
    simp only [if_true]
    obtain ⟨u, hu⟩ := prefix_takeWhile q p' (p' ++ t) (List.prefix_append _ _)
      (fun d hd => hq d (List.mem_cons_of_mem _ hd))
    exact ⟨u, by rw [show (c :: p') ++ u = c :: (p' ++ u) from rfl, hu]⟩

/-- takeWhile passes over a block that satisfies the predicate. -/
lemma takeWhile_append_all (q : Char → Bool) :
    ∀ (u v : List Char), (∀ c ∈ u, q c = true) →
      (u ++ v).takeWhile q = u ++ v.takeWhile q
  | [], v, _ => rfl
  | c :: u', v, h => by
    have hc : q c = true := h c (List.mem_cons_self _ _)
    rw [show (c :: u') ++ v = c :: (u' ++ v) from rfl, List.takeWhile_cons, hc]
    simp only [if_true]
    rw [takeWhile_append_all q u' v (fun d hd => h d (List.mem_cons_of_mem _ hd))]
    rfl

/-- takeWhile of an appended list is a prefix of the first block followed by
the takeWhile of the second. -/
lemma takeWhile_append_prefix (q : Char → Bool) :
    ∀ (u v : List Char), (u ++ v).takeWhile q <+: u ++ v.takeWhile q
  | [], v => List.prefix_refl _
  | c :: u', v => by
    rw [show (c :: u') ++ v = c :: (u' ++ v) from rfl, List.takeWhile_cons]
    cases hc : q c with
    | false => simp
    | true =>
      simp only [if_true]
      obtain ⟨t, ht⟩ := takeWhile_append_prefix q u' v
      exact ⟨t, by rw [List.cons_append, ht, List.cons_append]⟩

/-- Head alignment: when s ++ m ++ t = u ++ X with s shorter than u and m
non-empty, the head of m sits inside u. -/
lemma head_in_left : ∀ (s : List Char) (m t u X : List Char),
    s ++ m ++ t = u ++ X → s.length < u.length → m ≠ [] → u.get? s.length = m.head?
  | [], m, t, u, X, heq, hlen, hm => by
    cases u with
    | nil => exact absurd hlen (by simp)
    | cons a u' =>
      cases m with
      | nil => exact absurd rfl hm
      | cons b m' =>
        have : b = a := by
          have := congrArg List.head? heq
          simpa using this
        simp [this]
  | c :: s', m, t, u, X, heq, hlen, hm => by
    cases u with
    | nil => exact absurd hlen (by simp)
    | cons a u' =>
      have hh : c = a := by
        have := congrArg List.head? heq
        simpa using this
      have htl : s' ++ m ++ t = u' ++ X := by
        have := congrArg List.tail heq
        simpa using this
      have := head_in_left s' m t u' X htl (by simpa using hlen) hm
      simpa using this

/-- An occurrence of the name needle inside nameTailL ++ X lies inside X: the
needle starts with 'n' and nameTailL contains no 'n'. -/
lemma infix_past_nameTail (X : List Char) (h : nameNeedleL <:+: nameTailL ++ X) :
    nameNeedleL <:+: X := by
  obtain ⟨s, t, heq⟩ := h
  by_cases hlen : nameTailL.length ≤ s.length
  · have htake : s.take nameTailL.length = nameTailL := by
      have h1 : (s ++ nameNeedleL ++ t).take nameTailL.length = s.take nameTailL.length := by
        rw [List.append_assoc, List.take_append_of_le_length hlen]
      have h2 : (nameTailL ++ X).take nameTailL.length = nameTailL := List.take_left _ _
      rw [heq] at h1
      rw [h1] at h2
      exact h2
    have hs : s = nameTailL ++ s.drop nameTailL.length := by
      conv_lhs => rw [← List.take_append_drop nameTailL.length s]
      rw [htake]
    rw [hs, List.append_assoc, List.append_assoc] at heq
    have := List.append_cancel_left heq
    exact ⟨s.drop nameTailL.length, t, by rw [List.append_assoc]; exact this⟩
  · push_neg at hlen
    have hget := head_in_left s nameNeedleL t nameTailL X heq hlen (by decide)
    have hn : nameNeedleL.head? = some 'n' := rfl
    rw [hn] at hget
    have hmem : 'n' ∈ nameTailL := List.get?_mem hget
    exact absurd hmem (by decide)

/-- The inner scanner fails on a region whose brace-free prefix does not
contain the name needle. -/
lemma wsInner_none : ∀ (cs : List Char),
    ¬ nameNeedleL <:+: cs.takeWhile notBrace → wsInner cs = none
  | [], _ => rfl
  | c :: rest, h => by
    by_cases hc : c = rbrace
    · subst hc
      show wsInner (rbrace :: rest) = none
      unfold wsInner
      rw [if_pos rfl]
      unfold tryName
      rw [if_neg ?hnp]
      case hnp =>
        rw [isPrefixOfTrue]
        intro hp
        obtain ⟨t, ht⟩ := hp
        have hn : nameNeedleL = 'n' :: nameTailL := rfl
        rw [hn, List.cons_append] at ht
        injection ht with h1 h2
        exact absurd h1 (by decide)
    · have hq : notBrace c = true := by
        unfold notBrace
        rw [bne_iff_ne]
        exact hc
      have htw : (c :: rest).takeWhile notBrace = c :: rest.takeWhile notBrace := by
        rw [List.takeWhile_cons, hq]
        simp
      have hrest : wsInner rest = none := by
        refine wsInner_none rest (fun hinf => h ?_)
        rw [htw]
        exact List.infix_cons hinf
      show wsInner (c :: rest) = none
      unfold wsInner
      rw [if_neg hc, hrest]
      unfold tryName
      rw [if_neg ?hnp2]
      case hnp2 =>
        rw [isPrefixOfTrue]
        intro hp
        exact h (prefixWithin (prefix_takeWhile notBrace _ _ hp nameNeedle_chars))

/-- The inner scanner returns the group of the last name occurrence of the
brace-free run: skipping the run `m`, matching the needle, and taking the lazy
group up to the closing quote, provided no later needle occurrence lies in the
rest of the run. -/
lemma wsInner_found : ∀ (m w b : List Char),
    rbrace ∉ m → '"' ∉ w →
    ¬ nameNeedleL <:+: (w ++ '"' :: b.takeWhile notBrace) →
    wsInner (m ++ (nameNeedleL ++ (w ++ '"' :: b))) = some w
  | [], w, b, _, hw, h4 => by
    rw [List.nil_append]
    have hceq : nameNeedleL ++ (w ++ '"' :: b) = 'n' :: (nameTailL ++ (w ++ '"' :: b)) := rfl
    rw [hceq]
    unfold wsInner
    rw [if_neg (by decide : ¬('n' = rbrace))]
    have hnone : wsInner (nameTailL ++ (w ++ '"' :: b)) = none := by
      apply wsInner_none
      intro hinf
      rw [takeWhile_append_all notBrace nameTailL _ (by decide)] at hinf
      have hpast := infix_past_nameTail _ hinf
      have hpre : (w ++ '"' :: b).takeWhile notBrace <+: w ++ ('"' :: b).takeWhile notBrace :=
        takeWhile_append_prefix notBrace w _
      have hq : ('"' :: b).takeWhile notBrace = '"' :: b.takeWhile notBrace := by
        rw [List.takeWhile_cons, (by decide : notBrace '"' = true)]
        simp
      rw [hq] at hpre
      exact h4 (infixTrans hpast (prefixWithin hpre))
    rw [hnone]
    unfold tryName
    rw [if_pos ?hpre2]
    case hpre2 =>
      rw [isPrefixOfTrue, ← hceq]
      exact List.prefix_append _ _
    rw [← hceq, List.drop_left]
    exact takeUntilQuote_append w b hw
  | c :: m', w, b, hm, hw, h4 => by
    have hc : c ≠ rbrace := fun hcc => hm (hcc ▸ List.mem_cons_self _ _)
    have hm' : rbrace ∉ m' := fun hx => hm (List.mem_cons_of_mem _ hx)
    rw [List.cons_append]
    unfold wsInner
    rw [if_neg hc, wsInner_found m' w b hm' hw h4]

/-- The whole-pattern search lands on the occurrence of the literal head when
no earlier position carries it and the inner scanner succeeds there. -/
lemma wsSearch_skip : ∀ (a tail w : List Char),
    (∀ i, i < a.length →
      ¬ wsOpenL.isPrefixOf ((a ++ (wsOpenL ++ tail)).drop i) = true) →
    wsInner tail = some w →
    wsSearch (a ++ (wsOpenL ++ tail)) = some w
  | [], tail, w, _, hw => by
    rw [List.nil_append]
    have hceq : wsOpenL ++ tail = 'w' :: ("orkspaces \x7b".toList ++ tail) := rfl
    rw [hceq]
    unfold wsSearch
    rw [if_pos ?hpre]
    case hpre =>
      rw [isPrefixOfTrue, ← hceq]
      exact List.prefix_append _ _
    rw [← hceq, List.drop_left, hw]
  | c :: a', tail, w, h, hw => by
    have h0 := h 0 (Nat.succ_pos _)
    rw [List.drop_zero] at h0
    rw [List.cons_append]
    unfold wsSearch
    rw [if_neg (by simpa using h0)]
    refine wsSearch_skip a' tail w (fun i hi => ?_) hw
    have := h (i + 1) (by simpa using Nat.succ_lt_succ hi)
    simpa using this

/-- The workspace extractor on content decomposed around its first match. -/
lemma extract_ws_spec (a m w b : List Char)
    (h1 : ∀ i, i < a.length →
      ¬ wsOpenL.isPrefixOf
          ((a ++ (wsOpenL ++ (m ++ (nameNeedleL ++ (w ++ '"' :: b))))).drop i) = true)
    (h2 : rbrace ∉ m) (h3 : '"' ∉ w)
    (h4 : ¬ nameNeedleL <:+: (w ++ '"' :: b.takeWhile notBrace)) :
    extract_ws (String.mk (a ++ (wsOpenL ++ (m ++ (nameNeedleL ++ (w ++ '"' :: b)))))) =
      some (String.mk w) := by
  unfold extract_ws
  rw [show (String.mk (a ++ (wsOpenL ++ (m ++ (nameNeedleL ++ (w ++ '"' :: b)))))).toList =
        a ++ (wsOpenL ++ (m ++ (nameNeedleL ++ (w ++ '"' :: b)))) from rfl]
  rw [wsSearch_skip a _ w h1 (wsInner_found m w b h2 h3 h4)]
  rfl

/-- The organization extractor on content decomposed around its first match. -/
lemma extract_org_spec (a2 o b2 : List Char)
    (h5 : ∀ i, i < a2.length →
      ¬ orgNeedleL.isPrefixOf ((a2 ++ (orgNeedleL ++ (o ++ '"' :: b2))).drop i) = true)
    (h6 : '"' ∉ o) :
    extract_org (String.mk (a2 ++ (orgNeedleL ++ (o ++ '"' :: b2)))) = some (String.mk o) := by
  unfold extract_org
  rw [show (String.mk (a2 ++ (orgNeedleL ++ (o ++ '"' :: b2)))).toList =
        a2 ++ (orgNeedleL ++ (o ++ '"' :: b2)) from rfl]
  rw [findNeedle_skip a2 orgNeedleL (o ++ '"' :: b2) (by decide) h5]
  simp [takeUntilQuote_append o b2 h6]

/-- Claim C4: for a file whose content carries a `workspaces {` block with a
quoted name and an `organization = "..."` assignment, the Locator returns
exactly the pair (workspace name, organization name), taking the leftmost
match of each of the two independent patterns (the hypotheses express that the
exhibited decompositions are those first matches: nothing earlier matches
either pattern head, the block run `m` is brace-free, the captured names are
quote-free, and no later `name = "` occurrence lies in the same brace-free
run). -/
theorem claim_C4 (a m w b a2 o b2 : List Char)
    (hcs : a ++ (wsOpenL ++ (m ++ (nameNeedleL ++ (w ++ '"' :: b))))
           = a2 ++ (orgNeedleL ++ (o ++ '"' :: b2)))
    (h1 : ∀ i, i < a.length →
      ¬ wsOpenL.isPrefixOf
          ((a ++ (wsOpenL ++ (m ++ (nameNeedleL ++ (w ++ '"' :: b))))).drop i) = true)
    (h2 : rbrace ∉ m) (h3 : '"' ∉ w)
    (h4 : ¬ nameNeedleL <:+: (w ++ '"' :: b.takeWhile notBrace))
    (h5 : ∀ i, i < a2.length →
      ¬ orgNeedleL.isPrefixOf ((a2 ++ (orgNeedleL ++ (o ++ '"' :: b2))).drop i) = true)
    (h6 : '"' ∉ o) :
    find_workspace_and_org
        (some (String.mk (a ++ (wsOpenL ++ (m ++ (nameNeedleL ++ (w ++ '"' :: b))))))) =
      (some (String.mk w), some (String.mk o)) := by
  rw [show find_workspace_and_org
        (some (String.mk (a ++ (wsOpenL ++ (m ++ (nameNeedleL ++ (w ++ '"' :: b))))))) =
      (extract_ws (String.mk (a ++ (wsOpenL ++ (m ++ (nameNeedleL ++ (w ++ '"' :: b)))))),
       extract_org (String.mk (a ++ (wsOpenL ++ (m ++ (nameNeedleL ++ (w ++ '"' :: b)))))))
      from rfl]
  rw [extract_ws_spec a m w b h1 h2 h3 h4]
  rw [show String.mk (a ++ (wsOpenL ++ (m ++ (nameNeedleL ++ (w ++ '"' :: b)))))
        = String.mk (a2 ++ (orgNeedleL ++ (o ++ '"' :: b2))) from congrArg String.mk hcs]
  rw [extract_org_spec a2 o b2 h5 h6]

/-- Witness for claim C4 on a small terraform.tf-like content containing one
workspaces block and one organization assignment. -/
theorem claim_C4_witness :
    find_workspace_and_org
        (some (String.mk ("x = 1\n".toList ++ (wsOpenL ++ (" ".toList ++ (nameNeedleL ++
          ("w".toList ++ '"' :: " \x7d\norganization = \"o\"\n".toList))))))) =
      (some (String.mk "w".toList), some (String.mk "o".toList)) :=
  claim_C4 "x = 1\n".toList " ".toList "w".toList " \x7d\norganization = \"o\"\n".toList
    "x = 1\nworkspaces \x7b name = \"w\" \x7d\n".toList
    "o".toList "\n".toList
    (by decide) (by decide) (by decide) (by decide) (by decide) (by decide) (by decide)

/-! Lemmas about the urljoin path machinery. -/

/-- Render the segments of a directory-style absolute base path /s1/s2/.../ . -/
def joinSegs : List (List Char) → List Char
  | [] => []
  | s :: ss => s ++ '/' :: joinSegs ss

def renderDirPath (mids : List (List Char)) : List Char := '/' :: joinSegs mids

lemma splitSlash_cons_slash (x : List Char) : splitSlash ('/' :: x) = [] :: splitSlash x := by
  conv_lhs => unfold splitSlash
  rw [if_pos rfl]

/-- Splitting past a slash-free segment followed by a slash. -/
lemma splitSlash_seg : ∀ (seg rest : List Char), '/' ∉ seg →
    splitSlash (seg ++ '/' :: rest) = seg :: splitSlash rest
  | [], rest, _ => by
    rw [List.nil_append]
    exact splitSlash_cons_slash rest
  | c :: seg', rest, h => by
    have hc : c ≠ '/' := fun hcc => h (hcc ▸ List.mem_cons_self _ _)
    have h' : '/' ∉ seg' := fun hx => h (List.mem_cons_of_mem _ hx)
    rw [List.cons_append]
    conv_lhs => unfold splitSlash
    rw [if_neg hc, splitSlash_seg seg' rest h']

/-- Splitting a slash-free list yields the single segment. -/
lemma splitSlash_no_slash : ∀ (seg : List Char), '/' ∉ seg → splitSlash seg = [seg]
  | [], _ => rfl
  | c :: seg', h => by
    have hc : c ≠ '/' := fun hcc => h (hcc ▸ List.mem_cons_self _ _)
    have h' : '/' ∉ seg' := fun hx => h (List.mem_cons_of_mem _ hx)
    unfold splitSlash
    rw [if_neg hc, splitSlash_no_slash seg' h']

/-- Splitting the rendered directory path body. -/
lemma splitSlash_joinSegs : ∀ (mids : List (List Char)), (∀ s ∈ mids, '/' ∉ s) →
    splitSlash (joinSegs mids) = mids ++ [[]]
  | [], _ => rfl
  | m :: mids', h => by
    show splitSlash (m ++ '/' :: joinSegs mids') = (m :: mids') ++ [[]]
    rw [splitSlash_seg m _ (h m (List.mem_cons_self _ _)),
      splitSlash_joinSegs mids' (fun s hs => h s (List.mem_cons_of_mem _ hs))]
    rfl

/-- joinSlash distributes over append of non-empty segment lists. -/
lemma joinSlash_append : ∀ (xs ys : List (List Char)), xs ≠ [] → ys ≠ [] →
    joinSlash (xs ++ ys) = joinSlash xs ++ '/' :: joinSlash ys
  | [], _, hx, _ => absurd rfl hx
  | [x], ys, _, hy => by
    cases ys with
    | nil => exact absurd rfl hy
    | cons y ys' =>
      show joinSlash (x :: y :: ys') = joinSlash [x] ++ '/' :: joinSlash (y :: ys')
      rfl
  | x :: x2 :: xs', ys, _, hy => by
    rw [List.cons_append]
    show x ++ '/' :: joinSlash ((x2 :: xs') ++ ys) =
      joinSlash (x :: x2 :: xs') ++ '/' :: joinSlash ys
    rw [joinSlash_append (x2 :: xs') ys (by simp) hy]
    show x ++ '/' :: (joinSlash (x2 :: xs') ++ '/' :: joinSlash ys) =
      (x ++ '/' :: joinSlash (x2 :: xs')) ++ '/' :: joinSlash ys
    rw [List.append_assoc]
    rfl

/-- keepLastFilter is the identity on lists of non-empty segments. -/
lemma keepLastFilter_all : ∀ (l : List (List Char)), (∀ x ∈ l, x ≠ []) →
    keepLastFilter l = l
  | [], _ => rfl
  | [s], _ => rfl
  | s :: s2 :: ss, h => by
    show keepLastFilter (s :: s2 :: ss) = s :: s2 :: ss
    unfold keepLastFilter
    rw [if_neg (h s (List.mem_cons_self _ _)),
      keepLastFilter_all (s2 :: ss) (fun x hx => h x (List.mem_cons_of_mem _ hx))]

/-- keepLastFilter passes over a block of non-empty segments. -/
lemma keepLastFilter_append : ∀ (xs ys : List (List Char)),
    (∀ x ∈ xs, x ≠ []) → ys ≠ [] →
    keepLastFilter (xs ++ ys) = xs ++ keepLastFilter ys
  | [], _, _, _ => rfl
  | x :: xs', ys, h, hy => by
    rw [List.cons_append]
    have hne : xs' ++ ys ≠ [] := by
      intro hh
      exact hy (List.append_eq_nil.mp hh).2
    cases hzz : xs' ++ ys with
    | nil => exact absurd hzz hne
    | cons z zs =>
      show (if x = [] then keepLastFilter (z :: zs) else x :: keepLastFilter (z :: zs))
        = x :: (xs' ++ keepLastFilter ys)
      rw [if_neg (h x (List.mem_cons_self _ _)), ← hzz,
        keepLastFilter_append xs' ys (fun d hd => h d (List.mem_cons_of_mem _ hd)) hy]

/-- Dot resolution is the identity when no segment is a dot segment. -/
lemma resolveDots_no_dots : ∀ (segs : List (List Char)) (acc : List (List Char)),
    (∀ s ∈ segs, s ≠ ['.'] ∧ s ≠ ['.', '.']) → resolveDots acc segs = acc ++ segs
  | [], acc, _ => by simp [resolveDots]
  | s :: rest, acc, h => by
    have hs := h s (List.mem_cons_self _ _)
    unfold resolveDots
    rw [if_neg hs.2, if_neg hs.1,
      resolveDots_no_dots rest (acc ++ [s]) (fun d hd => h d (List.mem_cons_of_mem _ hd))]
    rw [List.append_assoc]
    rfl

/-- joinSegs of a non-empty list is joinSlash followed by a trailing slash. -/
lemma joinSegs_eq_joinSlash : ∀ (xs : List (List Char)), xs ≠ [] →
    joinSegs xs = joinSlash xs ++ ['/']
  | [], hx => absurd rfl hx
  | [x], _ => rfl
  | x :: x2 :: xs', _ => by
    show x ++ '/' :: joinSegs (x2 :: xs') = joinSlash (x :: x2 :: xs') ++ ['/']
    rw [joinSegs_eq_joinSlash (x2 :: xs') (by simp)]
    show x ++ '/' :: (joinSlash (x2 :: xs') ++ ['/']) =
      (x ++ '/' :: joinSlash (x2 :: xs')) ++ ['/']
    rw [List.append_assoc]
    rfl

/-- String.toList distributes over append. -/
lemma str_toList_append (a b : String) : (a ++ b).toList = a.toList ++ b.toList := by
  cases a
  cases b
  rfl

/-- String append is associative. -/
lemma str_append_assoc (x y z : String) : x ++ y ++ z = x ++ (y ++ z) := by
  cases x with
  | mk xd =>
    cases y with
    | mk yd =>
      cases z with
      | mk zd =>
        show String.mk (xd ++ yd ++ zd) = String.mk (xd ++ (yd ++ zd))
        rw [List.append_assoc]

/-- A string whose data starts with a character is not empty, even after
prepending. -/
lemma str_append_mk_cons_ne_empty (x : String) (c : Char) (cs : List Char) :
    x ++ String.mk (c :: cs) ≠ "" := by
  intro h
  cases x with
  | mk xd =>
    have hd := congrArg String.toList h
    have : xd ++ (c :: cs) = [] := hd
    exact absurd (List.append_eq_nil.mp this).2 (by simp)

/-- Splitting the relative reference organizations/{org}/workspaces/{ws}. -/
lemma splitSlash_relSegs (orgL wsL : List Char) (ho : '/' ∉ orgL) (hw : '/' ∉ wsL) :
    splitSlash ("organizations".toList ++ '/' :: (orgL ++ '/' ::
        ("workspaces".toList ++ '/' :: wsL))) =
      ["organizations".toList, orgL, "workspaces".toList, wsL] := by
  rw [splitSlash_seg _ _ (by decide), splitSlash_seg _ _ ho,
    splitSlash_seg _ _ (by decide), splitSlash_no_slash _ hw]

/-- The merged path for a well-formed directory base and the program's
relative reference is their concatenation. -/
lemma mergePath_spec (mids : List (List Char)) (orgL wsL : List Char)
    (hmids : ∀ s ∈ mids, s ≠ [] ∧ '/' ∉ s ∧ s ≠ ['.'] ∧ s ≠ ['.', '.'])
    (ho1 : orgL ≠ []) (ho2 : '/' ∉ orgL) (ho3 : orgL ≠ ['.']) (ho4 : orgL ≠ ['.', '.'])
    (hw1 : wsL ≠ []) (hw2 : '/' ∉ wsL) (hw3 : wsL ≠ ['.']) (hw4 : wsL ≠ ['.', '.']) :
    mergePath (renderDirPath mids)
        ("organizations".toList ++ '/' :: (orgL ++ '/' ::
          ("workspaces".toList ++ '/' :: wsL))) =
      renderDirPath mids ++ ("organizations".toList ++ '/' :: (orgL ++ '/' ::
        ("workspaces".toList ++ '/' :: wsL))) := by
  have hmids' : ∀ s ∈ mids, '/' ∉ s := fun s hs => (hmids s hs).2.1
  have hsplitb : splitSlash (renderDirPath mids) = [] :: (mids ++ [[]]) := by
    show splitSlash ('/' :: joinSegs mids) = _
    rw [splitSlash_cons_slash, splitSlash_joinSegs mids hmids']
  have hsplitr := splitSlash_relSegs orgL wsL ho2 hw2
  have hhead : ("organizations".toList ++ '/' :: (orgL ++ '/' ::
      ("workspaces".toList ++ '/' :: wsL))).head? = some 'o' := rfl
  have hlastb : ([] :: (mids ++ [[]]) : List (List Char)).getLast? = some [] := by
    rw [show ([] :: (mids ++ [[]]) : List (List Char)) = ([] :: mids) ++ [[]] from by
      rw [List.cons_append]]
    exact List.getLast?_concat _
  have hkl : keepLastFilter ((mids ++ [[]]) ++
      ["organizations".toList, orgL, "workspaces".toList, wsL]) =
      mids ++ ["organizations".toList, orgL, "workspaces".toList, wsL] := by
    rw [List.append_assoc]
    rw [keepLastFilter_append mids _ (fun s hs => (hmids s hs).1) (by simp)]
    congr 1
    rw [show ([[]] ++ ["organizations".toList, orgL, "workspaces".toList, wsL] :
        List (List Char)) =
      [] :: "organizations".toList :: [orgL, "workspaces".toList, wsL] from rfl]
    show (if ([] : List Char) = [] then
        keepLastFilter ("organizations".toList :: [orgL, "workspaces".toList, wsL])
      else [] :: keepLastFilter ("organizations".toList :: [orgL, "workspaces".toList, wsL]))
      = ["organizations".toList, orgL, "workspaces".toList, wsL]
    rw [if_pos rfl]
    refine keepLastFilter_all _ ?_
    intro x hx
    simp only [List.mem_cons, List.not_mem_nil, or_false] at hx
    rcases hx with hx | hx | hx | hx
    · rw [hx]; decide
    · rw [hx]; exact ho1
    · rw [hx]; decide
    · rw [hx]; exact hw1
  have hnodots : ∀ s ∈ ([] :: (mids ++
      ["organizations".toList, orgL, "workspaces".toList, wsL]) : List (List Char)),
      s ≠ ['.'] ∧ s ≠ ['.', '.'] := by
    intro s hs
    rcases List.mem_cons.mp hs with hs | hs
    · rw [hs]; exact ⟨by decide, by decide⟩
    · rcases List.mem_append.mp hs with hs | hs
      · exact ⟨(hmids s hs).2.2.1, (hmids s hs).2.2.2⟩
      · simp only [List.mem_cons, List.not_mem_nil, or_false] at hs
        rcases hs with hs | hs | hs | hs
        · rw [hs]; exact ⟨by decide, by decide⟩
        · rw [hs]; exact ⟨ho3, ho4⟩
        · rw [hs]; exact ⟨by decide, by decide⟩
        · rw [hs]; exact ⟨hw3, hw4⟩
  have hres : resolveDots [] ([] :: (mids ++
      ["organizations".toList, orgL, "workspaces".toList, wsL])) =
      [] :: (mids ++ ["organizations".toList, orgL, "workspaces".toList, wsL]) := by
    rw [resolveDots_no_dots _ _ hnodots]
    rfl
  have hlastseg : (([] :: (mids ++
      ["organizations".toList, orgL, "workspaces".toList, wsL])) :
      List (List Char)).getLast? = some wsL := by
    rw [show ([] :: (mids ++
        ["organizations".toList, orgL, "workspaces".toList, wsL]) : List (List Char)) =
      ([] :: (mids ++ ["organizations".toList, orgL, "workspaces".toList])) ++ [wsL] from by
        rw [show (["organizations".toList, orgL, "workspaces".toList, wsL] :
            List (List Char)) =
          ["organizations".toList, orgL, "workspaces".toList] ++ [wsL] from rfl,
          ← List.append_assoc, ← List.cons_append]]
    exact List.getLast?_concat _
  have hj4 : joinSlash ["organizations".toList, orgL, "workspaces".toList, wsL] =
      "organizations".toList ++ '/' :: (orgL ++ '/' ::
        ("workspaces".toList ++ '/' :: wsL)) := rfl
  simp only [mergePath]
  rw [hsplitr, hsplitb, hlastb]
  rw [if_pos rfl, hhead]
  rw [if_neg (by simp : ¬(some 'o' = some '/'))]
  rw [show (([] :: (mids ++ [[]])) ++
      ["organizations".toList, orgL, "workspaces".toList, wsL] : List (List Char)) =
    [] :: ((mids ++ [[]]) ++
      ["organizations".toList, orgL, "workspaces".toList, wsL]) from by
      rw [List.cons_append]]
  show (let segments := [] :: keepLastFilter ((mids ++ [[]]) ++
      ["organizations".toList, orgL, "workspaces".toList, wsL]);
    let resolved0 := resolveDots [] segments;
    let resolved :=
      if segments.getLast? = some ['.'] ∨ segments.getLast? = some ['.', '.'] then
        resolved0 ++ [[]]
      else resolved0;
    match joinSlash resolved with
    | [] => ['/']
    | js => js) = _
  rw [hkl]
  show (let resolved0 := resolveDots [] ([] :: (mids ++
      ["organizations".toList, orgL, "workspaces".toList, wsL]));
    let resolved :=
      if ([] :: (mids ++
          ["organizations".toList, orgL, "workspaces".toList, wsL]) :
          List (List Char)).getLast? = some ['.'] ∨
        ([] :: (mids ++
          ["organizations".toList, orgL, "workspaces".toList, wsL]) :
          List (List Char)).getLast? = some ['.', '.'] then
        resolved0 ++ [[]]
      else resolved0;
    match joinSlash resolved with
    | [] => ['/']
    | js => js) = _
  rw [hres, hlastseg]
  have hC : ¬(some wsL = some ['.'] ∨ some wsL = some ['.', '.']) := by
    rintro (hd | hd) <;> injection hd with hd2
    · exact hw3 hd2
    · exact hw4 hd2
  show (match joinSlash (if some wsL = some ['.'] ∨ some wsL = some ['.', '.'] then
      ([] :: (mids ++ ["organizations".toList, orgL, "workspaces".toList, wsL])) ++ [[]]
    else ([] :: (mids ++ ["organizations".toList, orgL, "workspaces".toList, wsL]))) with
    | [] => ['/']
    | js => js) = _
  rw [if_neg hC]
  cases mids with
  | nil =>
    rw [show (([] : List Char) :: ([] ++
        ["organizations".toList, orgL, "workspaces".toList, wsL]) : List (List Char)) =
      [] :: ["organizations".toList, orgL, "workspaces".toList, wsL] from rfl]
    show ('/' :: joinSlash ["organizations".toList, orgL, "workspaces".toList, wsL]) = _
    rw [hj4]
    rfl
  | cons m mids' =>
    have hjoin : joinSlash (([] : List Char) :: ((m :: mids') ++
        ["organizations".toList, orgL, "workspaces".toList, wsL])) =
        '/' :: joinSlash ((m :: mids') ++
          ["organizations".toList, orgL, "workspaces".toList, wsL]) := rfl
    rw [hjoin, joinSlash_append (m :: mids') _ (by simp) (by simp), hj4]
    show '/' :: (joinSlash (m :: mids') ++ '/' ::
        ("organizations".toList ++ '/' :: (orgL ++ '/' ::
          ("workspaces".toList ++ '/' :: wsL)))) = _
    rw [show renderDirPath (m :: mids') = '/' :: joinSegs (m :: mids') from rfl]
    rw [joinSegs_eq_joinSlash (m :: mids') (by simp)]
    rw [List.cons_append, List.append_assoc]
    rfl

/-- Strings with equal character lists are equal. -/
lemma str_eq_of_toList_eq (s t : String) (h : s.toList = t.toList) : s = t := by
  cases s with
  | mk d1 =>
    cases t with
    | mk d2 => exact congrArg String.mk h

lemma strMk_toList (s : String) : String.mk s.toList = s := by
  cases s
  rfl

/-- Claim C1 (amended): for every resolved organization and workspace name that
is a plain non-empty path segment (no slash, not "." or ".."), every non-empty
settings patch, and every base URL whose path is a well-formed directory path
(ending in "/", with no empty or dot segments), the issued request is a PATCH
whose URL is the base URL followed by organizations/{org}/workspaces/{ws},
whose body is the JSON:API envelope around the patch, with the bearer
Authorization and JSON:API Content-Type headers.  (As stated the claim fails:
urljoin drops the last segment of a base path that does not end in "/" -- see
the counterexample.) -/
theorem claim_C1 (origin token : String) (mids : List (List Char)) (org ws : String)
    (patch : List (String × JVal))
    (hmids : ∀ s ∈ mids, s ≠ [] ∧ '/' ∉ s ∧ s ≠ ['.'] ∧ s ≠ ['.', '.'])
    (horg1 : org ≠ "") (horg2 : '/' ∉ org.toList) (horg3 : org ≠ ".") (horg4 : org ≠ "..")
    (hws1 : ws ≠ "") (hws2 : '/' ∉ ws.toList) (hws3 : ws ≠ ".") (hws4 : ws ≠ "..")
    (hpatch : patch ≠ []) :
    update_workspace_settings origin (String.mk (renderDirPath mids)) token org ws patch =
      { method := "PATCH"
        url := origin ++ String.mk (renderDirPath mids) ++
          ("organizations/" ++ org ++ "/workspaces/" ++ ws)
        body := JVal.obj [("data", JVal.obj [("attributes", JVal.obj patch),
                                             ("type", JVal.str "workspaces")])]
        headers := [("Authorization", "Bearer " ++ token),
                    ("Content-Type", "application/vnd.api+json")] } := by
  have htl : ("organizations/" ++ org ++ "/workspaces/" ++ ws).toList =
      "organizations".toList ++ '/' :: (org.toList ++ '/' ::
        ("workspaces".toList ++ '/' :: ws.toList)) := by
    rw [str_toList_append, str_toList_append, str_toList_append]
    rw [List.append_assoc, List.append_assoc]
    rfl
  have hurl : urljoin origin (String.mk (renderDirPath mids))
      ("organizations/" ++ org ++ "/workspaces/" ++ ws) =
      origin ++ String.mk (renderDirPath mids) ++
        ("organizations/" ++ org ++ "/workspaces/" ++ ws) := by
    unfold urljoin
    have hne0 : origin ++ String.mk (renderDirPath mids) ≠ "" :=
      str_append_mk_cons_ne_empty origin '/' (joinSegs mids)
    rw [if_neg hne0]
    rw [show (String.mk (renderDirPath mids)).toList = renderDirPath mids from rfl, htl]
    rw [mergePath_spec mids org.toList ws.toList hmids
      (fun hh => horg1 (str_eq_of_toList_eq org "" (by rw [hh]; rfl)))
      horg2
      (fun hh => horg3 (str_eq_of_toList_eq org "." (by rw [hh]; rfl)))
      (fun hh => horg4 (str_eq_of_toList_eq org ".." (by rw [hh]; rfl)))
      (fun hh => hws1 (str_eq_of_toList_eq ws "" (by rw [hh]; rfl)))
      hws2
      (fun hh => hws3 (str_eq_of_toList_eq ws "." (by rw [hh]; rfl)))
      (fun hh => hws4 (str_eq_of_toList_eq ws ".." (by rw [hh]; rfl)))]
    rw [show String.mk (renderDirPath mids ++ ("organizations".toList ++ '/' ::
        (org.toList ++ '/' :: ("workspaces".toList ++ '/' :: ws.toList)))) =
      String.mk (renderDirPath mids) ++ String.mk ("organizations".toList ++ '/' ::
        (org.toList ++ '/' :: ("workspaces".toList ++ '/' :: ws.toList))) from rfl]
    rw [← str_append_assoc]
    congr 1
    rw [← htl]
    exact strMk_toList _
  unfold update_workspace_settings patch_workspace
  rw [hurl]

/-- Counterexample for claim C1 as stated: with the base URL
https://app.terraform.io/api/v2 (no trailing slash), urljoin replaces the
final segment v2, so the URL is neither the base directly followed by the
relative reference nor the base, a slash, and the relative reference. -/
theorem claim_C1_counterexample :
    (update_workspace_settings "https://app.terraform.io" "/api/v2" "tok" "o" "w"
        [("execution-mode", JVal.str "remote")]).url =
      "https://app.terraform.io/api/organizations/o/workspaces/w"
    ∧ (update_workspace_settings "https://app.terraform.io" "/api/v2" "tok" "o" "w"
        [("execution-mode", JVal.str "remote")]).url ≠
      "https://app.terraform.io" ++ "/api/v2" ++ "organizations/o/workspaces/w"
    ∧ (update_workspace_settings "https://app.terraform.io" "/api/v2" "tok" "o" "w"
        [("execution-mode", JVal.str "remote")]).url ≠
      "https://app.terraform.io" ++ "/api/v2" ++ "/" ++ "organizations/o/workspaces/w" :=
  ⟨by decide, by decide, by decide⟩

/-- Witness for claim C1 at the base path /api/v2/ and plain names. -/
theorem claim_C1_witness :
    update_workspace_settings "https://app.terraform.io"
        (String.mk (renderDirPath ["api".toList, "v2".toList])) "tok" "o" "w"
        [("execution-mode", JVal.str "remote")] =
      { method := "PATCH"
        url := "https://app.terraform.io" ++
          String.mk (renderDirPath ["api".toList, "v2".toList]) ++
          ("organizations/" ++ "o" ++ "/workspaces/" ++ "w")
        body := JVal.obj [("data",
          JVal.obj [("attributes", JVal.obj [("execution-mode", JVal.str "remote")]),
                    ("type", JVal.str "workspaces")])]
        headers := [("Authorization", "Bearer " ++ "tok"),
                    ("Content-Type", "application/vnd.api+json")] } :=
  claim_C1 "https://app.terraform.io" "tok" ["api".toList, "v2".toList] "o" "w"
    [("execution-mode", JVal.str "remote")]
    (by decide) (by decide) (by decide) (by decide) (by decide)
    (by decide) (by decide) (by decide) (by decide)
    (List.cons_ne_nil _ _)
